import Mathlib

/-!
Verification development for the WebShapp repository.

Shallow embedding of the core components:
* `backend/schemas.py`   — `ShapItem`, `LivePacket`, `WinProbMsg`
* `engine/shap_utils.py` — `BUCKET_MAP`, `bucketize_shap`
* `engine/meta_model.py` — `MetaModelConfig`, `MetaModel.update`
* `backend/ws.py`        — `ConnectionManager.broadcast`
* `backend/workers/watcher.py` — `handle_packet`, `redis_listener`
* `app/models.py`, `app/config.py`, `app/services/game_engine.py`
  — `PlayEvent`, `Settings`, `GameSession`, `GameEngine`

Python floats are modelled as real numbers where transcendental functions
occur (the smoothing model) and as rationals where ordering/indexing must be
computed (latency percentiles, play data).  Python dicts are modelled as
association lists with insertion-order update semantics; Python sets of keys
as lists with membership-insert.
-/

namespace WebShapp

/-! ## app/config.py — Settings -/

namespace Settings

def shap_top_k : Nat := 5

def max_queue_depth : Nat := 256

/-- `default_search_fields = ("play_id", "description", "team")`. -/
def default_search_fields : List String := ["play_id", "description", "team"]

end Settings

/-! ## backend/schemas.py -/

/-- SHAP contribution for a single feature (`ShapItem`). -/
structure ShapItem where
  f : String
  s : ℝ

/-- Raw payload emitted by the upstream inference service (`LivePacket`).
The opaque `state` blob carries no information relevant to the verified
components and is omitted from the parsed record. -/
structure LivePacket where
  gid : String
  ts : Int
  y_pred : ℝ
  shap : List ShapItem
  model_version : String
  play_id : Option String

/-- The `explain` payload of a `WinProbMsg`:
`{"raw": p_raw, "buckets": buckets, "alpha": alpha}`. -/
structure WinProbExplain where
  raw : ℝ
  buckets : List (String × ℝ)
  alpha : ℝ

/-- Payload published to Redis/websocket clients after smoothing (`WinProbMsg`). -/
structure WinProbMsg where
  gid : String
  ts : Int
  p_win : ℝ
  explain : WinProbExplain

/-! ## engine/shap_utils.py -/

/-- `BUCKET_MAP` from `engine/shap_utils.py` (a dict of sets; dict iteration
order is insertion order, which the list order reproduces). -/
def BUCKET_MAP : List (String × List String) :=
  [ ("QB", ["QB_pressure_rate", "QB_scramble_rate"]),
    ("WR", ["WR_sep", "WR_yards_after_catch"]),
    ("OL", ["OL_win_rate"]),
    ("DEF", ["DEF_pressure", "DEF_pass_rush"]),
    ("SITUATION", ["score_diff", "time_left"]) ]

/-- The inner loop of `bucketize_shap`: the first bucket of `BUCKET_MAP`
whose feature set contains `f`, else the catch-all `"OTHER"`. -/
def assignBucket (f : String) : String :=
  match BUCKET_MAP.find? (fun bs => bs.2.contains f) with
  | some bs => bs.1
  | none => "OTHER"

/-- `totals[k] += v` on a `defaultdict(float)` (missing key starts at 0;
insertion order of first occurrence is preserved). -/
noncomputable def addTotal (k : String) (v : ℝ) : List (String × ℝ) → List (String × ℝ)
  | [] => [(k, v)]
  | (k₀, v₀) :: rest =>
      if k₀ = k then (k₀, v₀ + v) :: rest else (k₀, v₀) :: addTotal k v rest

/-- `bucketize_shap` from `engine/shap_utils.py`: aggregate SHAP
contributions into pre-defined feature buckets. -/
noncomputable def bucketize_shap (shap_values : List ShapItem) : List (String × ℝ) :=
  shap_values.foldl (fun totals item => addTotal (assignBucket item.f) item.s totals) []

/-! ## engine/meta_model.py -/

/-- Configuration for the meta-model (`MetaModelConfig`): smoothing factor
`alpha` and the weight dict `beta`. -/
structure MetaModelConfig where
  alpha : ℝ
  beta : List (String × ℝ)

/-- The default `beta` dict of `MetaModelConfig`. -/
noncomputable def defaultBeta : List (String × ℝ) :=
  [ ("bias", 0), ("y_pred", 1), ("QB", 1/5), ("WR", 1/10), ("OL", 1/20),
    ("DEF", -(1/10)), ("SITUATION", 2/5), ("OTHER", 1/20) ]

/-- `MetaModelConfig()` with its default field values (`alpha = 0.15`). -/
noncomputable def defaultConfig : MetaModelConfig := ⟨3/20, defaultBeta⟩

/-- Python `d.get(k, default)` on a string-keyed dict. -/
def lookupD (m : List (String × ℝ)) (k : String) (d : ℝ) : ℝ :=
  match m.find? (fun kv => kv.1 == k) with
  | some kv => kv.2
  | none => d

/-- Python `d[k] = v` on a dict: overwrite in place, else append. -/
def setKey (k : String) (v : ℝ) : List (String × ℝ) → List (String × ℝ)
  | [] => [(k, v)]
  | (k₀, v₀) :: rest =>
      if k₀ == k then (k, v) :: rest else (k₀, v₀) :: setKey k v rest

/-- The logit accumulated by `MetaModel.update`:
`logit = beta["bias"] + beta["y_pred"] * packet.y_pred` followed by
`logit += beta.get(bucket, 0.0) * value` for each bucket total.  The default
config always defines the `"bias"` and `"y_pred"` keys, so the dict indexing
is total there. -/
noncomputable def logitOf (cfg : MetaModelConfig) (packet : LivePacket) : ℝ :=
  (bucketize_shap packet.shap).foldl
    (fun acc bv => acc + lookupD cfg.beta bv.1 0 * bv.2)
    (lookupD cfg.beta "bias" 0 + lookupD cfg.beta "y_pred" 0 * packet.y_pred)

/-- `p_raw = 1 / (1 + math.exp(-logit))` in `MetaModel.update`. -/
noncomputable def rawOf (cfg : MetaModelConfig) (packet : LivePacket) : ℝ :=
  1 / (1 + Real.exp (-(logitOf cfg packet)))

namespace MetaModel

/-- `MetaModel.update` from `engine/meta_model.py`, with the mutable
per-contest state dict `self._state` passed explicitly.  Returns the
published `WinProbMsg` together with the updated state. -/
noncomputable def update (cfg : MetaModelConfig) (state : List (String × ℝ)) (packet : LivePacket) :
    WinProbMsg × List (String × ℝ) :=
  let buckets := bucketize_shap packet.shap
  let p_raw := rawOf cfg packet
  let p_prev := lookupD state packet.gid p_raw
  let p_smooth := (1 - cfg.alpha) * p_prev + cfg.alpha * p_raw
  (⟨packet.gid, packet.ts, p_smooth, ⟨p_raw, buckets, cfg.alpha⟩⟩,
   setKey packet.gid p_smooth state)

/-- Process a sequence of packets in order through `MetaModel.update`,
collecting the emitted messages and the final state. -/
noncomputable def run (cfg : MetaModelConfig) (state : List (String × ℝ)) :
    List LivePacket → List WinProbMsg × List (String × ℝ)
  | [] => ([], state)
  | p :: rest =>
      let step := update cfg state p
      let next := run cfg step.2 rest
      (step.1 :: next.1, next.2)

end MetaModel

/-- The logistic function, as the spec describes the raw score:
`raw = sigmoid(bias + y_pred_weight·raw_prediction + Σ bucket_weight[b]·bucket_total[b])`. -/
noncomputable def sigmoid (x : ℝ) : ℝ := 1 / (1 + Real.exp (-x))

/-- The spec-side linear score: bias plus prediction-weight times raw
prediction plus the weighted sum of bucket totals, with weight 0 for
buckets that have no configured weight. -/
noncomputable def logitSpec (cfg : MetaModelConfig) (packet : LivePacket) : ℝ :=
  lookupD cfg.beta "bias" 0 + lookupD cfg.beta "y_pred" 0 * packet.y_pred +
    ((bucketize_shap packet.shap).map (fun bv => lookupD cfg.beta bv.1 0 * bv.2)).sum

/-! ## backend/ws.py — ConnectionManager -/

/-- A websocket client as the `ConnectionManager` sees it: an identity (the
Python object identity used by the membership set) and whether `send_text`
succeeds for it. -/
structure WSConn where
  id : Nat
  sendOk : Bool
deriving DecidableEq

/-- `ConnectionManager.disconnect`: `self._connections.discard(websocket)`.
Set membership hashes and compares websocket objects by identity, which the
`id` field models, so discard removes exactly the entries with `w`'s id. -/
def disconnectWS (conns : List WSConn) (w : WSConn) : List WSConn :=
  conns.filter (fun x => x.id != w.id)

/-- One `_safe_send` call inside `ConnectionManager.broadcast`, acting on the
membership set together with the list of ids delivered so far: a successful
send delivers `w.id`; a failing send is caught by the `try/except` and
triggers `disconnect(w)` instead.  The `except Exception` plus
`gather(..., return_exceptions=True)` mean no exception escapes, which the
embedding reflects by `safeSend` being a total function. -/
def safeSend (st : List WSConn × List Nat) (w : WSConn) : List WSConn × List Nat :=
  if w.sendOk then (st.1, st.2 ++ [w.id]) else (disconnectWS st.1 w, st.2)

/-- `ConnectionManager.broadcast`: snapshot the current membership under the
lock as `recipients`, then `_safe_send` to every recipient.  Returns the new
membership set and the ids successfully delivered to. -/
def ConnectionManager.broadcast (conns : List WSConn) : List WSConn × List Nat :=
  let recipients := conns
  recipients.foldl safeSend (conns, [])

/-! ## backend/workers/watcher.py -/

/-- The error taxonomy of the ingestion path: `pydantic.ValidationError`
raised by `LivePacket.model_validate` on malformed input (a JSON decode
failure on the raw bytes behaves the same way for the claims considered:
an exception before any effect). -/
inductive WatchError
  | validationError
deriving DecidableEq

/-- An undecoded pub/sub payload: each `LivePacket` field either present or
missing/ill-typed. -/
structure RawPayload where
  gid : Option String
  ts : Option Int
  y_pred : Option ℝ
  state : Option Unit
  shap : Option (List ShapItem)
  model_version : Option String
  play_id : Option String

/-- `LivePacket.model_validate(payload)`: succeeds exactly when every
required field is present (`play_id` alone is `Optional`). -/
def parseLivePacket (p : RawPayload) : Option LivePacket :=
  match p.gid, p.ts, p.y_pred, p.state, p.shap, p.model_version with
  | some gid, some ts, some y, some _, some shapList, some mv =>
      some ⟨gid, ts, y, shapList, mv, p.play_id⟩
  | _, _, _, _, _, _ => none

/-- Python `d[k] = v` on a dict of arbitrary values. -/
def setAssoc {α : Type} (k : String) (v : α) : List (String × α) → List (String × α)
  | [] => [(k, v)]
  | (k₀, v₀) :: rest =>
      if k₀ == k then (k, v) :: rest else (k₀, v₀) :: setAssoc k v rest

/-- The observable effects of the watcher pipeline: the two TTL caches
(keyed per contest id), the pub/sub publications, the audit stream appends,
the websocket broadcasts, and the meta-model smoothing state. -/
structure WatcherState where
  lastShap : List (String × LivePacket)
  winprob : List (String × WinProbMsg)
  published : List WinProbMsg
  stream : List LivePacket
  broadcasts : List WinProbMsg
  modelState : List (String × ℝ)

/-- The initial watcher state: empty caches, no publications, and the fresh
(empty) state of the module-level `meta_model` singleton. -/
def initialWatcherState : WatcherState := ⟨[], [], [], [], [], []⟩

/-- `handle_packet` from `backend/workers/watcher.py`: parse the payload
(a failure raises `ValidationError` before any effect) then, in source
order, `cache_live_packet`, `meta_model.update`, `cache_winprob`,
`publish_update`, `append_stream`, and the websocket broadcast of
`{gid, p_win, ts, explain}`. -/
noncomputable def handle_packet (st : WatcherState) (raw : RawPayload) :
    Except WatchError WatcherState :=
  match parseLivePacket raw with
  | none => .error .validationError
  | some packet =>
      let st₁ := { st with lastShap := setAssoc packet.gid packet st.lastShap }
      let res := MetaModel.update defaultConfig st₁.modelState packet
      let msg := res.1
      let st₂ := { st₁ with modelState := res.2,
                            winprob := setAssoc msg.gid msg st₁.winprob }
      let st₃ := { st₂ with published := st₂.published ++ [msg] }
      let st₄ := { st₃ with stream := st₃.stream ++ [packet] }
      .ok { st₄ with broadcasts := st₄.broadcasts ++ [msg] }

/-- One message from `pubsub.listen()`: its `"type"` field and its decoded
`"data"` payload. -/
structure PubSubMessage where
  msgType : String
  data : RawPayload

/-- The `async for message in pubsub.listen()` loop of `redis_listener`
over a (finite) list of incoming messages.  Non-`"message"` entries are
skipped by the explicit `continue`; `handle_packet` is awaited with **no**
surrounding `try/except`, so an error raised there propagates, the loop
terminates (running the `finally` cleanup), and the remaining messages are
never processed.  Returns the final state and the escaped error, if any. -/
noncomputable def redis_listener (st : WatcherState) :
    List PubSubMessage → WatcherState × Option WatchError
  | [] => (st, none)
  | m :: rest =>
      if m.msgType != "message" then redis_listener st rest
      else
        match handle_packet st m.data with
        | .error e => (st, some e)
        | .ok st₁ => redis_listener st₁ rest

/-! ## app/models.py -/

/-- One discrete scored event within a contest (`PlayEvent`); immutable
once loaded.  Timestamps are modelled as integers, numeric floats as
rationals. -/
structure PlayEvent where
  play_id : String
  description : String
  team : String
  quarter : Int
  time_remaining : ℚ
  features : List (String × ℚ)
  prediction : ℚ
  timestamp : Int
deriving DecidableEq

/-- `TimelinePoint` from `app/models.py` (timestamp omitted: wall clock). -/
structure TimelinePoint where
  play_id : String
  shap_sum : ℚ
deriving DecidableEq

/-- The `type` tag of a `WebsocketPayload`. -/
inductive WsType
  | game_state
  | prediction
  | shap
  | timeline
deriving DecidableEq

/-- One broadcast of `GameSession.broadcast`, reduced to its `type` tag and
the play it concerns (the fields relevant to the ordering claims). -/
structure WsEvent where
  type : WsType
  play_id : String
deriving DecidableEq

/-! ## app/services/game_engine.py -/

/-- `GameSession` state: plays, the replay cursor `self._index`, the pause
gate, the rolling timeline and the two latency sample lists. -/
structure GameSession where
  game_id : String
  home_team : String
  away_team : String
  plays : List PlayEvent
  index : Nat
  paused : Bool
  timeline : List TimelinePoint
  latencies : List ℚ
  prediction_latencies : List ℚ
deriving DecidableEq

/-- `GameSession.__init__`: cursor 0, gate open, empty histories. -/
def GameSession.create (game_id home_team away_team : String)
    (plays : List PlayEvent) : GameSession :=
  ⟨game_id, home_team, away_team, plays, 0, false, [], [], []⟩

/-- The sequence of websocket events emitted by `GameSession._run_replay`
starting from cursor position `i`: for each remaining play, in source
order, a `prediction` broadcast, then a `shap` broadcast, then a `timeline`
broadcast.  The pause-gate wait, the paced sleeps and the latency
book-keeping affect timing only, not the emitted order, and the executor
hand-off is awaited before the `shap` broadcast, so they do not appear in
the trace. -/
def runReplayFrom (plays : List PlayEvent) (i : Nat) : List WsEvent :=
  if h : i < plays.length then
    let play := plays.get ⟨i, h⟩
    ⟨.prediction, play.play_id⟩ :: ⟨.shap, play.play_id⟩ :: ⟨.timeline, play.play_id⟩ ::
      runReplayFrom plays (i + 1)
  else []
termination_by plays.length - i

/-- `QueueDepthExceeded` (the spec's `CapacityExceeded`) and the `KeyError`
of `GameEngine.get` (the spec's `NotFound`). -/
inductive EngineError
  | queueDepthExceeded
  | notFound (game_id : String)
deriving DecidableEq

/-- `GameEngine` state: the `_sessions` dict (insertion-ordered) and the
`_idempotency_keys` set. -/
structure GameEngine where
  sessions : List (String × GameSession)
  idempotency_keys : List String
deriving DecidableEq

/-- `self._sessions[game_id]` lookup (`game_id in self._sessions` is
`(findSession ...).isSome`). -/
def findSession (sessions : List (String × GameSession)) (gid : String) :
    Option GameSession :=
  match sessions.find? (fun kv => kv.1 == gid) with
  | some kv => some kv.2
  | none => none

/-- `self._sessions[game_id] = session`: dict write, insertion order kept. -/
def setSession (gid : String) (s : GameSession) :
    List (String × GameSession) → List (String × GameSession)
  | [] => [(gid, s)]
  | (k, v) :: rest =>
      if k == gid then (gid, s) :: rest else (k, v) :: setSession gid s rest

/-- `self._idempotency_keys.add(key)`: set insertion. -/
def addKeyIdem (keys : List String) (k : String) : List String :=
  if keys.contains k then keys else keys ++ [k]

/-- `GameEngine.ingest` from `app/services/game_engine.py`.  Checks the
idempotency shortcut first, then the queue-depth limit, then constructs and
stores a fresh session.  Returns the outcome (the session, or the raised
`QueueDepthExceeded`) paired with the engine state after the call: the
raise happens before any mutation, so on error the state is the original
one. -/
def GameEngine.ingest (e : GameEngine) (game_id home_team away_team : String)
    (plays : List PlayEvent) (idempotency_key : String) :
    Except EngineError GameSession × GameEngine :=
  match e.idempotency_keys.contains idempotency_key, findSession e.sessions game_id with
  | true, some s => (.ok s, e)
  | _, _ =>
      if plays.length > Settings.max_queue_depth then (.error .queueDepthExceeded, e)
      else
        let s := GameSession.create game_id home_team away_team plays
        (.ok s, ⟨setSession game_id s e.sessions, addKeyIdem e.idempotency_keys idempotency_key⟩)

/-- `GameEngine.get`: `KeyError` on an unknown contest id. -/
def GameEngine.get (e : GameEngine) (game_id : String) : Except EngineError GameSession :=
  match findSession e.sessions game_id with
  | some s => .ok s
  | none => .error (.notFound game_id)

/-! ### Search -/

/-- Python `str.lower()` as a character list (ASCII case folding, which
covers the verified properties). -/
def pyLower (s : String) : List Char := s.data.map Char.toLower

/-- Does `sub` occur at the head of `hay`? -/
def leadEq : List Char → List Char → Bool
  | [], _ => true
  | _ :: _, [] => false
  | a :: as, b :: bs => a == b && leadEq as bs

/-- Python substring containment `sub in hay`. -/
def containsSub (sub : List Char) : List Char → Bool
  | [] => sub.isEmpty
  | c :: rest => leadEq sub (c :: rest) || containsSub sub rest

/-- The per-play haystack of `GameEngine.search`:
`" ".join(str(getattr(play, field)) for field in settings.default_search_fields if hasattr(play, field))`.
Every `PlayEvent` has the three configured attributes `play_id`,
`description` and `team` (in that order), so the join is this fixed
space-separated concatenation. -/
def haystack (play : PlayEvent) : String :=
  play.play_id ++ " " ++ play.description ++ " " ++ play.team

/-- `lower_query in haystack.lower()` for one play. -/
def matchesQuery (lower_query : List Char) (play : PlayEvent) : Bool :=
  containsSub lower_query (pyLower (haystack play))

/-- The inner `for play in session.plays` loop of `GameEngine.search`:
returns the accumulated results plus whether the `len(results) >= limit`
early `return` fired. -/
def searchSession (lq : List Char) (limit : Nat) :
    List PlayEvent → List PlayEvent → List PlayEvent × Bool
  | acc, [] => (acc, false)
  | acc, p :: rest =>
      if matchesQuery lq p then
        let acc₁ := acc ++ [p]
        if limit ≤ acc₁.length then (acc₁, true) else searchSession lq limit acc₁ rest
      else searchSession lq limit acc rest

/-- The outer `for session in self._sessions.values()` loop of search: an
early return from the inner loop returns from the whole function. -/
def searchSessions (lq : List Char) (limit : Nat) :
    List PlayEvent → List GameSession → List PlayEvent
  | acc, [] => acc
  | acc, s :: rest =>
      match searchSession lq limit acc s.plays with
      | (acc₁, true) => acc₁
      | (acc₁, false) => searchSessions lq limit acc₁ rest

/-- `GameEngine.search(query, limit=10)`. -/
def GameEngine.search (e : GameEngine) (query : String) (limit : Nat) :
    List PlayEvent :=
  searchSessions (pyLower query) limit [] (e.sessions.map (fun kv => kv.2))

/-! ### Metrics -/

/-- The p-95 helper inside `GameEngine.metrics`:
`sorted_latencies[max(int(0.95 * len(sorted_latencies)) - 1, 0)]`, and `0.0`
when the sample list is empty.  Python `int(...)` truncates toward zero,
which on the nonnegative value `0.95 * n` is the floor; `Int.toNat` of the
predecessor realises the `max(..., 0)`. -/
def p95 (samples : List ℚ) : ℚ :=
  if samples.isEmpty then 0
  else
    (samples.insertionSort (fun a b => a ≤ b)).getD
      (⌊(95 : ℚ) / 100 * samples.length⌋ - 1).toNat 0

/-- The spec's description of the same helper, word for word:
`sorted[max(floor(0.95·n) − 1, 0)]` over the sorted samples, `0` when the
list is empty. -/
def p95Spec (samples : List ℚ) : ℚ :=
  if samples.isEmpty then 0
  else
    (samples.insertionSort (fun a b => a ≤ b)).getD
      (max (⌊(95 : ℚ) / 100 * samples.length⌋ - 1) 0).toNat 0

/-- The dict returned by `GameEngine.metrics`. -/
structure Metrics where
  p95_shap_latency_ms : ℚ
  prediction_latency_p95_ms : ℚ
  queue_depth : Nat
  max_queue_depth : Nat
deriving DecidableEq

/-- `GameEngine.metrics`: p-95 of both latency sample lists, plus
`queue_depth = max(0, len(session.plays) - session._index)` (natural
subtraction already truncates at 0). -/
def GameEngine.metrics (e : GameEngine) (game_id : String) :
    Except EngineError Metrics :=
  match GameEngine.get e game_id with
  | .error err => .error err
  | .ok s =>
      .ok ⟨p95 s.latencies, p95 s.prediction_latencies,
           s.plays.length - s.index, Settings.max_queue_depth⟩

/-! ## Claim C10 — bucketing partitions contributions -/

/-- The bucket names that `bucketize_shap` can produce: the keys of
`BUCKET_MAP` plus the catch-all `"OTHER"`. -/
def bucketNames : List String := BUCKET_MAP.map (fun bs => bs.1) ++ ["OTHER"]

lemma assignBucket_mem_bucketNames (f : String) : assignBucket f ∈ bucketNames := by
  unfold assignBucket
  cases h : BUCKET_MAP.find? (fun bs => bs.2.contains f) with
  | none => simp [bucketNames]
  | some bs =>
      have hmem : bs ∈ BUCKET_MAP := List.mem_of_find?_eq_some h
      exact List.mem_append_left _ (List.mem_map_of_mem _ hmem)

lemma sum_addTotal (k : String) (v : ℝ) :
    ∀ totals : List (String × ℝ),
      ((addTotal k v totals).map (fun kv => kv.2)).sum
        = (totals.map (fun kv => kv.2)).sum + v := by
  intro totals
  induction totals with
  | nil => simp [addTotal]
  | cons hd tl ih =>
      obtain ⟨k₀, v₀⟩ := hd
      by_cases hk : k₀ = k
      · simp only [addTotal, if_pos hk, List.map_cons, List.sum_cons]
        ring
      · simp only [addTotal, if_neg hk, List.map_cons, List.sum_cons, ih]
        ring

lemma mem_addTotal (k : String) (v : ℝ) :
    ∀ (totals : List (String × ℝ)) kv, kv ∈ addTotal k v totals →
      kv.1 = k ∨ kv ∈ totals := by
  intro totals
  induction totals with
  | nil =>
      intro kv hkv
      simp only [addTotal, List.mem_singleton] at hkv
      exact Or.inl (by simp [hkv])
  | cons hd tl ih =>
      intro kv hkv
      obtain ⟨k₀, v₀⟩ := hd
      by_cases hk : k₀ = k
      · simp only [addTotal, if_pos hk, List.mem_cons] at hkv
        rcases hkv with h | h
        · exact Or.inl (by simp [h, hk])
        · exact Or.inr (List.mem_cons_of_mem _ h)
      · simp only [addTotal, if_neg hk, List.mem_cons] at hkv
        rcases hkv with h | h
        · exact Or.inr (by simp [h])
        · rcases ih kv h with h₁ | h₁
          · exact Or.inl h₁
          · exact Or.inr (List.mem_cons_of_mem _ h₁)

lemma bucketize_fold_sum (items : List ShapItem) :
    ∀ totals : List (String × ℝ),
      ((items.foldl (fun t it => addTotal (assignBucket it.f) it.s t) totals).map
          (fun kv => kv.2)).sum
        = (totals.map (fun kv => kv.2)).sum + (items.map (fun it => it.s)).sum := by
  induction items with
  | nil => intro totals; simp
  | cons it rest ih =>
      intro totals
      simp only [List.foldl_cons, List.map_cons, List.sum_cons, ih, sum_addTotal]
      ring

lemma bucketize_fold_mem (items : List ShapItem) :
    ∀ (totals : List (String × ℝ)) kv,
      kv ∈ items.foldl (fun t it => addTotal (assignBucket it.f) it.s t) totals →
      kv ∈ totals ∨ kv.1 ∈ bucketNames := by
  induction items with
  | nil => intro totals kv h; exact Or.inl h
  | cons it rest ih =>
      intro totals kv h
      simp only [List.foldl_cons] at h
      rcases ih _ kv h with h₁ | h₁
      · rcases mem_addTotal _ _ _ kv h₁ with h₂ | h₂
        · exact Or.inr (h₂ ▸ assignBucket_mem_bucketNames it.f)
        · exact Or.inl h₂
      · exact Or.inr h₁

/-- Claim C10: every (feature, contribution) pair is assigned to exactly one
bucket — the first entry of `BUCKET_MAP` whose feature set contains the
feature exactly, or the catch-all `"OTHER"` (the assignment `assignBucket`
is a total function, so the bucket is unique) — hence the bucket totals
returned by `bucketize_shap` sum to the sum of all input contribution
values, and every returned bucket name is a table bucket or `"OTHER"`. -/
theorem claim_C10_bucketize_sum (items : List ShapItem) :
    ((bucketize_shap items).map (fun kv => kv.2)).sum = (items.map (fun it => it.s)).sum
      ∧ ∀ kv ∈ bucketize_shap items, kv.1 ∈ bucketNames := by
  constructor
  · have h := bucketize_fold_sum items []
    simpa [bucketize_shap] using h
  · intro kv hkv
    rcases bucketize_fold_mem items [] kv hkv with h | h
    · simp at h
    · exact h

/-- Witness for C10 at a concrete input: the items
`[("QB_pressure_rate", 1), ("mystery", 2)]` land in buckets `QB` and
`OTHER`, the totals sum to the input sum `3`, and the membership hypothesis
is discharged at the concrete pair `("QB", 1)`. -/
theorem claim_C10_witness :
    ((bucketize_shap [⟨"QB_pressure_rate", 1⟩, ⟨"mystery", 2⟩]).map (fun kv => kv.2)).sum
        = ((([⟨"QB_pressure_rate", 1⟩, ⟨"mystery", 2⟩] : List ShapItem)).map
            (fun it => it.s)).sum
      ∧ ("QB", (1 : ℝ)) ∈ bucketize_shap [⟨"QB_pressure_rate", 1⟩, ⟨"mystery", 2⟩]
      ∧ ("QB" : String) ∈ bucketNames := by
  have hmem : ("QB", (1 : ℝ)) ∈ bucketize_shap [⟨"QB_pressure_rate", 1⟩, ⟨"mystery", 2⟩] := by
    simp [bucketize_shap, addTotal, assignBucket, BUCKET_MAP]
  refine ⟨(claim_C10_bucketize_sum _).1, hmem, ?_⟩
  exact (claim_C10_bucketize_sum _).2 _ hmem

/-! ## Claim C9 — p95 latency helper -/

lemma p95_eq_p95Spec (l : List ℚ) : p95 l = p95Spec l := by
  unfold p95 p95Spec
  have h : (⌊(95 : ℚ) / 100 * l.length⌋ - 1).toNat
      = (max (⌊(95 : ℚ) / 100 * l.length⌋ - 1) 0).toNat := by omega
  rw [h]

lemma p95_index_lt (l : List ℚ) (hne : l ≠ []) :
    (⌊(95 : ℚ) / 100 * l.length⌋ - 1).toNat < l.length := by
  have hfloor : ⌊(95 : ℚ) / 100 * l.length⌋ ≤ (l.length : ℤ) := by
    have hle : (95 : ℚ) / 100 * l.length ≤ (l.length : ℚ) :=
      mul_le_of_le_one_left (Nat.cast_nonneg _) (by norm_num)
    have := Int.floor_le_floor hle
    simpa using this
  have hpos : 0 < l.length := List.length_pos.mpr hne
  omega

/-- Claim C9: the metrics operation computes the p-95 value as
`sorted[max(floor(0.95·n) − 1, 0)]` over the sorted samples and returns 0
when the list is empty; for the samples `[1, …, 10]` the p-95 index is 8
and the p-95 value is 9.  The fourth conjunct exhibits the sorted
permutation the index selects from and shows the index is in bounds; the
last conjunct ties the helper to `GameEngine.metrics`, which applies it to
both latency sample lists. -/
theorem claim_C9_metrics_p95 :
    p95 [] = 0
      ∧ (⌊(95 : ℚ) / 100 * (([1,2,3,4,5,6,7,8,9,10] : List ℚ)).length⌋ - 1).toNat = 8
      ∧ p95 [1,2,3,4,5,6,7,8,9,10] = 9
      ∧ (∀ l : List ℚ, l ≠ [] →
          ∃ s : List ℚ, s.Perm l ∧ s.Sorted (fun a b => a ≤ b)
            ∧ (⌊(95 : ℚ) / 100 * l.length⌋ - 1).toNat < l.length
            ∧ p95 l = s.getD (⌊(95 : ℚ) / 100 * l.length⌋ - 1).toNat 0
            ∧ p95 l = p95Spec l)
      ∧ ∀ (e : GameEngine) (gid : String) (s : GameSession),
          findSession e.sessions gid = some s →
          GameEngine.metrics e gid
            = .ok ⟨p95 s.latencies, p95 s.prediction_latencies,
                   s.plays.length - s.index, Settings.max_queue_depth⟩ := by
  refine ⟨by decide, by norm_num; decide, ?_, ?_, ?_⟩
  · have h : (⌊(95 : ℚ) / 100 * (([1,2,3,4,5,6,7,8,9,10] : List ℚ)).length⌋ - 1).toNat = 8 := by
      norm_num
      decide
    rw [p95, h]
    decide
  · intro l hne
    refine ⟨l.insertionSort (fun a b => a ≤ b),
      List.perm_insertionSort _ l, List.sorted_insertionSort _ l,
      p95_index_lt l hne, ?_, p95_eq_p95Spec l⟩
    have hne' : l.isEmpty = false := by simpa [List.isEmpty_iff] using hne
    rw [p95, hne']
    simp
  · intro e gid s hfind
    simp [GameEngine.metrics, GameEngine.get, hfind]

/-- The session and engine used to witness the metrics claims: ten
explanation-latency samples, no prediction samples, no plays. -/
def sessC9 : GameSession :=
  ⟨"g", "h", "a", [], 0, false, [], [1,2,3,4,5,6,7,8,9,10], []⟩

def engC9 : GameEngine := ⟨[("g", sessC9)], []⟩

/-- Witness for C9: the nonemptiness hypothesis is discharged at the sorted
sample list `[1, …, 10]`, and the metrics hypothesis at a concrete engine
holding those samples. -/
theorem claim_C9_witness :
    ([1,2,3,4,5,6,7,8,9,10] : List ℚ) ≠ []
      ∧ (∃ s : List ℚ, s.Perm [1,2,3,4,5,6,7,8,9,10] ∧ s.Sorted (fun a b => a ≤ b)
          ∧ (⌊(95 : ℚ) / 100 * (([1,2,3,4,5,6,7,8,9,10] : List ℚ)).length⌋ - 1).toNat
              < (([1,2,3,4,5,6,7,8,9,10] : List ℚ)).length
          ∧ p95 [1,2,3,4,5,6,7,8,9,10]
              = s.getD (⌊(95 : ℚ) / 100 * (([1,2,3,4,5,6,7,8,9,10] : List ℚ)).length⌋ - 1).toNat 0
          ∧ p95 [1,2,3,4,5,6,7,8,9,10] = p95Spec [1,2,3,4,5,6,7,8,9,10])
      ∧ findSession engC9.sessions "g" = some sessC9
      ∧ GameEngine.metrics engC9 "g"
          = .ok ⟨p95 sessC9.latencies, p95 sessC9.prediction_latencies,
                 sessC9.plays.length - sessC9.index, Settings.max_queue_depth⟩ := by
  have hfind : findSession engC9.sessions "g" = some sessC9 := by decide
  exact ⟨by decide,
    claim_C9_metrics_p95.2.2.2.1 _ (by decide),
    hfind,
    claim_C9_metrics_p95.2.2.2.2 engC9 "g" sessC9 hfind⟩

/-! ## Claim C6 — fan-out isolates delivery failures -/

/-- The ids of the recipients whose send fails. -/
def failIds (rs : List WSConn) : List Nat :=
  (rs.filter (fun w => !w.sendOk)).map (fun w => w.id)

lemma broadcast_foldl (rs : List WSConn) :
    ∀ (cur : List WSConn) (acc : List Nat),
      rs.foldl safeSend (cur, acc)
        = (cur.filter (fun x => !(failIds rs).contains x.id),
           acc ++ (rs.filter (fun w => w.sendOk)).map (fun w => w.id)) := by
  induction rs with
  | nil => intro cur acc; simp [failIds]
  | cons w rest ih =>
      intro cur acc
      by_cases hw : w.sendOk
      · simp only [List.foldl_cons, safeSend, if_pos hw, ih]
        have hfail : failIds (w :: rest) = failIds rest := by
          simp [failIds, hw]
        rw [hfail]
        simp [hw]
      · simp only [List.foldl_cons, safeSend, if_neg hw, ih, disconnectWS]
        have hfail : failIds (w :: rest) = w.id :: failIds rest := by
          simp [failIds, hw]
        rw [hfail, List.filter_filter]
        simp only [Prod.mk.injEq]
        constructor
        · congr 1
          funext x
          by_cases hxp : x.id = w.id <;> simp [List.contains_cons, hxp, Bool.and_comm]
        · simp [hw]

/-- Claim C6: a broadcast over any membership set whose connection
identities are distinct delivers to exactly the subscribers whose send
succeeds — one subscriber's failure does not block the others — and the new
membership set is the old one with exactly the failing subscribers evicted.
`ConnectionManager.broadcast` is a total function: the per-send
`try/except` together with `gather(..., return_exceptions=True)` means no
exception escapes the call. -/
theorem claim_C6_broadcast (conns : List WSConn)
    (hids : (conns.map (fun w => w.id)).Nodup) :
    ConnectionManager.broadcast conns
      = (conns.filter (fun w => w.sendOk),
         (conns.filter (fun w => w.sendOk)).map (fun w => w.id)) := by
  unfold ConnectionManager.broadcast
  rw [broadcast_foldl]
  simp only [List.nil_append]
  congr 1
  apply List.filter_congr
  intro x hx
  show (!(failIds conns).contains x.id) = x.sendOk
  cases hsend : x.sendOk with
  | true =>
      cases hc : (failIds conns).contains x.id with
      | false => rfl
      | true =>
          exfalso
          have hmem : x.id ∈ failIds conns := List.mem_of_elem_eq_true hc
          simp only [failIds, List.mem_map, List.mem_filter] at hmem
          obtain ⟨y, ⟨hy, hyok⟩, hyid⟩ := hmem
          have hxy : y = x := List.inj_on_of_nodup_map hids hy hx hyid
          rw [hxy] at hyok
          simp [hsend] at hyok
  | false =>
      have hmem : x.id ∈ failIds conns := by
        simp only [failIds, List.mem_map, List.mem_filter]
        exact ⟨x, ⟨hx, by simp [hsend]⟩, rfl⟩
      simp [hmem]

/-- Witness for C6: the spec's example — three subscribers of which the
second always fails to send.  One broadcast delivers to the two healthy
subscribers and evicts the broken one. -/
theorem claim_C6_witness :
    (([⟨1, true⟩, ⟨2, false⟩, ⟨3, true⟩] : List WSConn).map (fun w => w.id)).Nodup
      ∧ ConnectionManager.broadcast [⟨1, true⟩, ⟨2, false⟩, ⟨3, true⟩]
          = ([⟨1, true⟩, ⟨3, true⟩], [1, 3]) := by
  have h := claim_C6_broadcast [⟨1, true⟩, ⟨2, false⟩, ⟨3, true⟩] (by decide)
  exact ⟨by decide, by rw [h]; decide⟩

/-! ## Claim C7 — per-play event ordering in replay -/

/-- The three broadcasts `_run_replay` performs for one play, in source
order. -/
def eventsOf (p : PlayEvent) : List WsEvent :=
  [⟨.prediction, p.play_id⟩, ⟨.shap, p.play_id⟩, ⟨.timeline, p.play_id⟩]

lemma runReplayFrom_eq (plays : List PlayEvent) :
    ∀ (n i : Nat), plays.length - i = n →
      runReplayFrom plays i = (plays.drop i).flatMap eventsOf := by
  intro n
  induction n with
  | zero =>
      intro i h
      have hle : plays.length ≤ i := by omega
      rw [runReplayFrom, dif_neg (by omega), List.drop_eq_nil_of_le hle]
      rfl
  | succ n ih =>
      intro i h
      have hlt : i < plays.length := by omega
      rw [runReplayFrom, dif_pos hlt, List.drop_eq_getElem_cons hlt,
        ih (i + 1) (by omega), List.flatMap_cons]
      simp [eventsOf, List.get_eq_getElem]

lemma getElem?_cons3 (l : List WsEvent) (a b c : WsEvent) (k : Nat) :
    (a :: b :: c :: l)[k + 3]? = l[k]? := by
  show (a :: b :: c :: l)[(k + 2) + 1]? = l[k]?
  rw [List.getElem?_cons_succ]
  show (b :: c :: l)[(k + 1) + 1]? = l[k]?
  rw [List.getElem?_cons_succ]
  show (c :: l)[k + 1]? = l[k]?
  rw [List.getElem?_cons_succ]

lemma bind_eventsOf_get (plays : List PlayEvent) :
    ∀ (i : Nat) (h : i < plays.length),
      ((plays.flatMap eventsOf)[3 * i]? = some ⟨.prediction, (plays.get ⟨i, h⟩).play_id⟩)
      ∧ ((plays.flatMap eventsOf)[3 * i + 1]? = some ⟨.shap, (plays.get ⟨i, h⟩).play_id⟩)
      ∧ ((plays.flatMap eventsOf)[3 * i + 2]? = some ⟨.timeline, (plays.get ⟨i, h⟩).play_id⟩) := by
  induction plays with
  | nil => intro i h; simp at h
  | cons p rest ih =>
      intro i h
      cases i with
      | zero => simp [eventsOf, List.flatMap_cons]
      | succ j =>
          have hj : j < rest.length := by simpa using h
          obtain ⟨h₁, h₂, h₃⟩ := ih j hj
          refine ⟨?_, ?_, ?_⟩
          · have hk : 3 * (j + 1) = 3 * j + 3 := by ring
            rw [hk, List.flatMap_cons]
            exact (getElem?_cons3 (rest.flatMap eventsOf) _ _ _ (3 * j)).trans h₁
          · have hk : 3 * (j + 1) + 1 = (3 * j + 1) + 3 := by ring
            rw [hk, List.flatMap_cons]
            exact (getElem?_cons3 (rest.flatMap eventsOf) _ _ _ (3 * j + 1)).trans h₂
          · have hk : 3 * (j + 1) + 2 = (3 * j + 2) + 3 := by ring
            rw [hk, List.flatMap_cons]
            exact (getElem?_cons3 (rest.flatMap eventsOf) _ _ _ (3 * j + 2)).trans h₃

/-- Claim C7: for every play replayed by `GameSession._run_replay`, the
emitted event trace places that play's `prediction` event at position `3i`,
its `shap` (explanation) event at position `3i + 1` and its `timeline`
event at position `3i + 2` — so `prediction` precedes `shap`, which
precedes `timeline`, for every play. -/
theorem claim_C7_replay_event_order (plays : List PlayEvent) (i : Nat)
    (h : i < plays.length) :
    (runReplayFrom plays 0)[3 * i]? = some ⟨.prediction, (plays.get ⟨i, h⟩).play_id⟩
      ∧ (runReplayFrom plays 0)[3 * i + 1]? = some ⟨.shap, (plays.get ⟨i, h⟩).play_id⟩
      ∧ (runReplayFrom plays 0)[3 * i + 2]? = some ⟨.timeline, (plays.get ⟨i, h⟩).play_id⟩ := by
  have hr : runReplayFrom plays 0 = plays.flatMap eventsOf := by
    have hb := runReplayFrom_eq plays (plays.length - 0) 0 rfl
    simpa using hb
  rw [hr]
  exact bind_eventsOf_get plays i h

/-- Two concrete plays used by several witnesses. -/
def demoPlay : PlayEvent := ⟨"p1", "Play number 1", "home", 1, 0, [], 0, 0⟩

def demoPlay2 : PlayEvent := ⟨"p2", "Play number 2", "away", 1, 0, [], 0, 0⟩

/-- Witness for C7: for the second play of a two-play replay, the trace
holds its prediction, shap and timeline events at positions 3, 4 and 5. -/
theorem claim_C7_witness :
    (1 : Nat) < ([demoPlay, demoPlay2] : List PlayEvent).length
      ∧ (runReplayFrom [demoPlay, demoPlay2] 0)[3 * 1]? = some ⟨.prediction, "p2"⟩
      ∧ (runReplayFrom [demoPlay, demoPlay2] 0)[3 * 1 + 1]? = some ⟨.shap, "p2"⟩
      ∧ (runReplayFrom [demoPlay, demoPlay2] 0)[3 * 1 + 2]? = some ⟨.timeline, "p2"⟩ := by
  have h : (1 : Nat) < ([demoPlay, demoPlay2] : List PlayEvent).length := by decide
  obtain ⟨h₁, h₂, h₃⟩ := claim_C7_replay_event_order [demoPlay, demoPlay2] 1 h
  exact ⟨h, h₁, h₂, h₃⟩

/-! ## Claims C2, C3 — ingest capacity and idempotency -/

lemma findSession_setSession (gid : String) (s : GameSession) :
    ∀ sessions, findSession (setSession gid s sessions) gid = some s := by
  intro sessions
  induction sessions with
  | nil => simp [setSession, findSession, List.find?]
  | cons kv rest ih =>
      obtain ⟨k, v⟩ := kv
      by_cases hk : k = gid
      · simp [setSession, findSession, hk, List.find?]
      · simpa [setSession, findSession, hk, List.find?] using ih

lemma contains_addKeyIdem (keys : List String) (k : String) :
    (addKeyIdem keys k).contains k = true := by
  unfold addKeyIdem
  cases h : keys.contains k with
  | true => simpa using h
  | false => simp

/-- Claim C3: if the idempotency key was already seen and a session already
exists for the contest id, `ingest` returns that session with the engine
state untouched — no new session, no play-list replacement, no cursor
reset; consequently two consecutive `ingest` calls with the same contest id
and idempotency key return the same result: whatever engine state the first
successful call produced, the second call reproduces its result exactly and
changes nothing. -/
theorem claim_C3_ingest_idempotent (e : GameEngine)
    (gid home away key : String) (plays : List PlayEvent) :
    (∀ s : GameSession, e.idempotency_keys.contains key = true →
        findSession e.sessions gid = some s →
        GameEngine.ingest e gid home away plays key = (.ok s, e))
      ∧ ∀ (s : GameSession) (e₁ : GameEngine),
          GameEngine.ingest e gid home away plays key = (.ok s, e₁) →
          GameEngine.ingest e₁ gid home away plays key = (.ok s, e₁) := by
  constructor
  · intro s hc hf
    unfold GameEngine.ingest
    rw [hc, hf]
  · intro s e₁ h
    cases hc : e.idempotency_keys.contains key <;>
      cases hf : findSession e.sessions gid
    case true.some s₀ =>
      unfold GameEngine.ingest at h
      rw [hc, hf] at h
      have h' : (Except.ok s₀, e) = (Except.ok s, e₁) := h
      obtain ⟨hs, he⟩ := Prod.mk.inj h'
      obtain rfl := Except.ok.inj hs
      subst he
      unfold GameEngine.ingest
      rw [hc, hf]
    all_goals {
      unfold GameEngine.ingest at h
      rw [hc, hf] at h
      have h' : (if Settings.max_queue_depth < plays.length
            then ((Except.error EngineError.queueDepthExceeded :
                    Except EngineError GameSession), e)
            else (Except.ok (GameSession.create gid home away plays),
              ⟨setSession gid (GameSession.create gid home away plays) e.sessions,
               addKeyIdem e.idempotency_keys key⟩))
          = (Except.ok s, e₁) := h
      by_cases hlen : Settings.max_queue_depth < plays.length
      · rw [if_pos hlen] at h'
        exact absurd (Prod.mk.inj h').1 (by simp)
      · rw [if_neg hlen] at h'
        obtain ⟨hs, he⟩ := Prod.mk.inj h'
        obtain rfl := Except.ok.inj hs
        subst he
        unfold GameEngine.ingest
        rw [contains_addKeyIdem, findSession_setSession]
    }

/-- The engine state after one successful ingest of `[demoPlay]` for
contest `"g"` under key `"k"`. -/
def sessDemo : GameSession := GameSession.create "g" "h" "a" [demoPlay]

def engEmpty : GameEngine := ⟨[], []⟩

def engOne : GameEngine := ⟨[("g", sessDemo)], ["k"]⟩

/-- Witness for C3: a first ingest on an empty engine creates the session;
a repeat call with the same contest id and idempotency key returns the very
same session and leaves the engine unchanged. -/
theorem claim_C3_witness :
    GameEngine.ingest engEmpty "g" "h" "a" [demoPlay] "k" = (.ok sessDemo, engOne)
      ∧ GameEngine.ingest engOne "g" "h" "a" [demoPlay] "k" = (.ok sessDemo, engOne)
      ∧ engOne.idempotency_keys.contains "k" = true
      ∧ findSession engOne.sessions "g" = some sessDemo := by
  have h₁ : GameEngine.ingest engEmpty "g" "h" "a" [demoPlay] "k" = (.ok sessDemo, engOne) := by
    rfl
  refine ⟨h₁, ?_, by decide, by decide⟩
  exact (claim_C3_ingest_idempotent engEmpty "g" "h" "a" "k" [demoPlay]).2 sessDemo engOne h₁

/-- Counterexample to C2 as stated: when the idempotency key was already
seen and a session already exists for the contest id, `ingest` takes the
idempotent shortcut **before** the queue-depth check, so a play list longer
than the maximum does not fail with `QueueDepthExceeded` — the existing
session is returned instead. -/
theorem claim_C2_counterexample :
    (List.replicate 257 demoPlay).length > Settings.max_queue_depth
      ∧ GameEngine.ingest engOne "g" "h" "a" (List.replicate 257 demoPlay) "k"
          = (.ok sessDemo, engOne) := by
  constructor
  · rw [List.length_replicate]
    decide
  · rfl

/-- Claim C2 as amended: a call to `ingest` with a play list longer than the
configured maximum fails with `QueueDepthExceeded` and leaves the engine
state (hence any existing session for the contest id) unmodified, unless
the idempotency key was already seen and a session already exists for that
contest id, in which case the existing session is returned unchanged. -/
theorem claim_C2_capacity (e : GameEngine) (gid home away key : String)
    (plays : List PlayEvent)
    (hlen : plays.length > Settings.max_queue_depth) :
    (¬(e.idempotency_keys.contains key = true
          ∧ (findSession e.sessions gid).isSome = true) →
        GameEngine.ingest e gid home away plays key = (.error .queueDepthExceeded, e))
      ∧ ∀ s : GameSession, e.idempotency_keys.contains key = true →
          findSession e.sessions gid = some s →
          GameEngine.ingest e gid home away plays key = (.ok s, e) := by
  constructor
  · intro hni
    cases hc : e.idempotency_keys.contains key <;>
      cases hf : findSession e.sessions gid
    case true.some s₀ => exact absurd ⟨hc, by simp [hf]⟩ hni
    all_goals {
      unfold GameEngine.ingest
      rw [hc, hf]
      have h' : (if Settings.max_queue_depth < plays.length
            then ((Except.error EngineError.queueDepthExceeded :
                    Except EngineError GameSession), e)
            else (Except.ok (GameSession.create gid home away plays),
              ⟨setSession gid (GameSession.create gid home away plays) e.sessions,
               addKeyIdem e.idempotency_keys key⟩))
          = ((Except.error EngineError.queueDepthExceeded :
                Except EngineError GameSession), e) := by
        rw [if_pos hlen]
      exact h'
    }
  · intro s hc hf
    unfold GameEngine.ingest
    rw [hc, hf]

/-- Witness for C2 (amended): on an empty engine, ingesting 257 plays
(one more than the maximum 256) fails with `QueueDepthExceeded` and leaves
the engine unchanged. -/
theorem claim_C2_witness :
    (List.replicate 257 demoPlay).length > Settings.max_queue_depth
      ∧ ¬(engEmpty.idempotency_keys.contains "k" = true
            ∧ (findSession engEmpty.sessions "g").isSome = true)
      ∧ GameEngine.ingest engEmpty "g" "h" "a" (List.replicate 257 demoPlay) "k"
          = (.error .queueDepthExceeded, engEmpty) := by
  have hlen : (List.replicate 257 demoPlay).length > Settings.max_queue_depth := by
    rw [List.length_replicate]
    decide
  have hni : ¬(engEmpty.idempotency_keys.contains "k" = true
      ∧ (findSession engEmpty.sessions "g").isSome = true) := by decide
  exact ⟨hlen, hni,
    (claim_C2_capacity engEmpty "g" "h" "a" "k" (List.replicate 257 demoPlay) hlen).1 hni⟩

/-! ## Claim C8 — search -/

lemma leadEq_iff (sub : List Char) : ∀ hay, leadEq sub hay = true ↔ sub <+: hay := by
  induction sub with
  | nil => intro hay; simp [leadEq, List.nil_prefix]
  | cons a as ih =>
      intro hay
      cases hay with
      | nil => simp [leadEq]
      | cons b bs =>
          simp only [leadEq, Bool.and_eq_true, beq_iff_eq, List.cons_prefix_cons, ih bs]

lemma containsSub_iff (sub : List Char) : ∀ hay, containsSub sub hay = true ↔ sub <:+: hay := by
  intro hay
  induction hay with
  | nil => simp [containsSub, List.isEmpty_iff, List.infix_nil]
  | cons c rest ih =>
      simp only [containsSub, Bool.or_eq_true, leadEq_iff, ih, List.infix_cons_iff]

/-- The nested search loops flattened over the concatenated play lists,
with the same accumulate-then-stop logic; used to characterise
`GameEngine.search`. -/
def scanPlays (lq : List Char) (limit : Nat) :
    List PlayEvent → List PlayEvent → List PlayEvent
  | acc, [] => acc
  | acc, p :: rest =>
      if matchesQuery lq p then
        let acc₁ := acc ++ [p]
        if limit ≤ acc₁.length then acc₁ else scanPlays lq limit acc₁ rest
      else scanPlays lq limit acc rest

lemma scanPlays_append (lq : List Char) (limit : Nat) :
    ∀ (xs ys acc : List PlayEvent),
      scanPlays lq limit acc (xs ++ ys)
        = (match searchSession lq limit acc xs with
           | (acc₁, true) => acc₁
           | (acc₁, false) => scanPlays lq limit acc₁ ys) := by
  intro xs
  induction xs with
  | nil => intro ys acc; simp [searchSession]
  | cons p rest ih =>
      intro ys acc
      by_cases hm : matchesQuery lq p = true
      · simp only [List.cons_append, scanPlays, searchSession, hm, if_true]
        by_cases hl : limit ≤ (acc ++ [p]).length
        · rw [if_pos hl, if_pos hl]
        · rw [if_neg hl, if_neg hl]
          exact ih ys (acc ++ [p])
      · simp only [List.cons_append, scanPlays, searchSession, hm, if_false]
        exact ih ys acc

lemma searchSessions_eq_scan (lq : List Char) (limit : Nat) :
    ∀ (sessions : List GameSession) (acc : List PlayEvent),
      searchSessions lq limit acc sessions
        = scanPlays lq limit acc (sessions.flatMap (fun s => s.plays)) := by
  intro sessions
  induction sessions with
  | nil => intro acc; simp [searchSessions, scanPlays]
  | cons s rest ih =>
      intro acc
      rw [List.flatMap_cons, scanPlays_append]
      cases hs : searchSession lq limit acc s.plays with
      | mk acc₁ flag =>
          cases flag with
          | true => simp [searchSessions, hs]
          | false => simp [searchSessions, hs, ih]

lemma take_len_succ {α : Type} (l₁ l₂ : List α) (a : α) :
    (l₁ ++ a :: l₂).take (l₁.length + 1) = l₁ ++ [a] := by
  rw [List.append_cons, show l₁.length + 1 = (l₁ ++ [a]).length + 0 by simp,
    List.take_append]
  simp

lemma scanPlays_take (lq : List Char) (limit : Nat) :
    ∀ (plays acc : List PlayEvent), acc.length < limit →
      scanPlays lq limit acc plays
        = (acc ++ plays.filter (matchesQuery lq)).take limit := by
  intro plays
  induction plays with
  | nil =>
      intro acc hacc
      simp only [scanPlays, List.filter_nil, List.append_nil]
      exact (List.take_of_length_le (Nat.le_of_lt hacc)).symm
  | cons p rest ih =>
      intro acc hacc
      by_cases hm : matchesQuery lq p = true
      · simp only [scanPlays, hm, if_true]
        by_cases hl : limit ≤ (acc ++ [p]).length
        · rw [if_pos hl]
          have hlim : limit = acc.length + 1 := by
            simp only [List.length_append, List.length_singleton] at hl
            omega
          rw [List.filter_cons_of_pos hm, hlim, take_len_succ]
        · rw [if_neg hl]
          have hacc₁ : (acc ++ [p]).length < limit := by
            simp only [List.length_append, List.length_singleton] at hl ⊢
            omega
          rw [ih _ hacc₁, List.filter_cons_of_pos hm]
          congr 1
          simp
      · simp only [scanPlays, hm, Bool.false_eq_true, if_false]
        rw [ih _ hacc, List.filter_cons_of_neg hm]

/-- Counterexample to C8 as stated: the `len(results) >= limit` check runs
only **after** a match has been appended, so with `limit = 0` a search over
a matching record returns one play, not at most zero. -/
theorem claim_C8_counterexample :
    GameEngine.search engOne "" 0 = [demoPlay]
      ∧ ¬((GameEngine.search engOne "" 0).length ≤ 0) := by
  constructor
  · rfl
  · decide

/-- Claim C8 as amended: for every query string and every limit ≥ 1,
`search` equals the first `limit` entries of the concatenated play lists
(sessions in dict iteration order, plays in in-session order) filtered by
the match predicate — hence it returns at most `limit` plays, in order,
short-circuiting at `limit` — and every returned play contains the
lowercased query as a substring of the lowercased space-joined
concatenation of the searchable fields `play_id`, `description`, `team`.
(For `limit = 0` the code can return one match; see the counterexample.) -/
theorem claim_C8_search (e : GameEngine) (query : String) (limit : Nat)
    (hlim : 1 ≤ limit) :
    GameEngine.search e query limit
      = (((e.sessions.map (fun kv => kv.2)).flatMap (fun s => s.plays)).filter
          (matchesQuery (pyLower query))).take limit
      ∧ (GameEngine.search e query limit).length ≤ limit
      ∧ ∀ p ∈ GameEngine.search e query limit,
          matchesQuery (pyLower query) p = true
            ∧ pyLower query <:+: pyLower (haystack p) := by
  have hmain : GameEngine.search e query limit
      = (((e.sessions.map (fun kv => kv.2)).flatMap (fun s => s.plays)).filter
          (matchesQuery (pyLower query))).take limit := by
    unfold GameEngine.search
    rw [searchSessions_eq_scan,
      scanPlays_take (pyLower query) limit _ [] (by simpa using hlim)]
    simp
  refine ⟨hmain, ?_, ?_⟩
  · rw [hmain, List.length_take]
    exact min_le_left _ _
  · intro p hp
    rw [hmain] at hp
    have hp₁ := List.mem_of_mem_take hp
    have hm := List.of_mem_filter hp₁
    exact ⟨hm, (containsSub_iff _ _).mp hm⟩

/-- Witness for C8 (amended) at `limit = 1` and query `"Play"` over a
one-session engine: the single matching play is returned. -/
theorem claim_C8_witness :
    (1 : Nat) ≤ 1
      ∧ GameEngine.search engOne "Play" 1
          = (((engOne.sessions.map (fun kv => kv.2)).flatMap (fun s => s.plays)).filter
              (matchesQuery (pyLower "Play"))).take 1
      ∧ (GameEngine.search engOne "Play" 1).length ≤ 1
      ∧ GameEngine.search engOne "Play" 1 = [demoPlay] := by
  obtain ⟨h₁, h₂, _⟩ := claim_C8_search engOne "Play" 1 (le_refl 1)
  exact ⟨le_refl 1, h₁, h₂, by decide⟩

/-! ## Claim C1 — malformed payloads in the watcher loop -/

/-- A malformed payload: the required `gid` field is missing, so
`LivePacket.model_validate` raises `ValidationError`. -/
noncomputable def badPayload : RawPayload :=
  ⟨none, some 1, some 0, some ⟨⟩, some [], some "v0", none⟩

/-- A well-formed payload carrying every required field. -/
noncomputable def goodPayload : RawPayload :=
  ⟨some "g", some 1, some 0, some ⟨⟩, some [], some "v0", none⟩

noncomputable def badMsg : PubSubMessage := ⟨"message", badPayload⟩

noncomputable def goodMsg : PubSubMessage := ⟨"message", goodPayload⟩

/-- Counterexample to C1 as stated: `redis_listener` awaits `handle_packet`
with no surrounding `try/except`, so the `ValidationError` raised on a
malformed payload escapes and terminates the subscription loop.  With a
malformed payload followed by a well-formed one, the loop stops at the
first and the second is never processed (no broadcast happens), whereas the
well-formed payload alone would produce one broadcast — so the loop does
**not** continue past malformed input. -/
theorem claim_C1_counterexample :
    redis_listener initialWatcherState [badMsg, goodMsg]
        = (initialWatcherState, some .validationError)
      ∧ (redis_listener initialWatcherState [badMsg, goodMsg]).1.broadcasts = []
      ∧ (redis_listener initialWatcherState [goodMsg]).1.broadcasts.length = 1 := by
  refine ⟨rfl, rfl, rfl⟩

/-- Claim C1 as amended: when a payload of a `"message"` entry fails to
parse into a `LivePacket`, `handle_packet` raises `ValidationError` before
performing any effect, so the malformed packet is dropped — but the
exception propagates out of the subscription loop, which terminates with
the state unchanged; the remaining queued messages are not processed.
Non-`"message"` entries are skipped and the loop does continue past them. -/
theorem claim_C1_watcher (st : WatcherState) (m : PubSubMessage)
    (rest : List PubSubMessage)
    (htype : m.msgType = "message") (hbad : parseLivePacket m.data = none) :
    redis_listener st (m :: rest) = (st, some .validationError)
      ∧ ∀ (m₀ : PubSubMessage) (rest₀ : List PubSubMessage),
          m₀.msgType ≠ "message" →
          redis_listener st (m₀ :: rest₀) = redis_listener st rest₀ := by
  constructor
  · show (if m.msgType != "message" then redis_listener st (m :: rest).tail
        else match handle_packet st m.data with
          | .error e => (st, some e)
          | .ok st₁ => redis_listener st₁ (m :: rest).tail) = (st, some .validationError)
    rw [htype]
    show (match handle_packet st m.data with
          | .error e => (st, some e)
          | .ok st₁ => redis_listener st₁ rest) = (st, some .validationError)
    unfold handle_packet
    rw [hbad]
  · intro m₀ rest₀ hne
    show (if m₀.msgType != "message" then redis_listener st rest₀
        else match handle_packet st m₀.data with
          | .error e => (st, some e)
          | .ok st₁ => redis_listener st₁ rest₀) = redis_listener st rest₀
    rw [if_pos (by simpa using hne)]

/-- Witness for C1 (amended): at the concrete malformed payload missing its
`gid`, the listener terminates immediately with `ValidationError`, leaving
the well-formed follow-up unprocessed, and a non-`"message"` control entry
is skipped. -/
theorem claim_C1_witness :
    badMsg.msgType = "message"
      ∧ parseLivePacket badMsg.data = none
      ∧ redis_listener initialWatcherState [badMsg, goodMsg]
          = (initialWatcherState, some .validationError)
      ∧ redis_listener initialWatcherState
            [⟨"subscribe", badPayload⟩, badMsg, goodMsg]
          = redis_listener initialWatcherState [badMsg, goodMsg] := by
  have h := claim_C1_watcher initialWatcherState badMsg [goodMsg] rfl rfl
  exact ⟨rfl, rfl, h.1, h.2 ⟨"subscribe", badPayload⟩ [badMsg, goodMsg] (by simp)⟩

/-! ## Claims C4, C5 — the smoothing model -/

lemma rawOf_eq_sigmoid (cfg : MetaModelConfig) (packet : LivePacket) :
    rawOf cfg packet = sigmoid (logitOf cfg packet) := rfl

lemma foldl_add_map {α : Type} (f : α → ℝ) :
    ∀ (l : List α) (init : ℝ),
      l.foldl (fun acc x => acc + f x) init = init + (l.map f).sum := by
  intro l
  induction l with
  | nil => intro init; simp
  | cons x rest ih =>
      intro init
      simp only [List.foldl_cons, List.map_cons, List.sum_cons, ih, add_assoc]

lemma logitOf_eq_logitSpec (cfg : MetaModelConfig) (packet : LivePacket) :
    logitOf cfg packet = logitSpec cfg packet := by
  unfold logitOf logitSpec
  rw [foldl_add_map]

lemma sigmoid_pos (x : ℝ) : 0 < sigmoid x := by
  unfold sigmoid
  positivity

lemma sigmoid_lt_one (x : ℝ) : sigmoid x < 1 := by
  unfold sigmoid
  rw [div_lt_one (by positivity)]
  have h := Real.exp_pos (-x)
  linarith

lemma lookupD_bounds (state : List (String × ℝ)) (k : String) (d : ℝ)
    (hst : ∀ kv ∈ state, 0 ≤ kv.2 ∧ kv.2 ≤ 1) (hd : 0 ≤ d ∧ d ≤ 1) :
    0 ≤ lookupD state k d ∧ lookupD state k d ≤ 1 := by
  unfold lookupD
  cases h : state.find? (fun kv => kv.1 == k) with
  | none => exact hd
  | some kv => exact hst kv (List.mem_of_find?_eq_some h)

lemma mem_setKey (k : String) (v : ℝ) :
    ∀ (state : List (String × ℝ)) kv, kv ∈ setKey k v state →
      kv = (k, v) ∨ kv ∈ state := by
  intro state
  induction state with
  | nil =>
      intro kv h
      simp only [setKey, List.mem_singleton] at h
      exact Or.inl h
  | cons hd tl ih =>
      intro kv h
      obtain ⟨k₀, v₀⟩ := hd
      by_cases hk : (k₀ == k) = true
      · simp only [setKey, if_pos hk, List.mem_cons] at h
        rcases h with h | h
        · exact Or.inl h
        · exact Or.inr (List.mem_cons_of_mem _ h)
      · simp only [setKey, if_neg hk, List.mem_cons] at h
        rcases h with h | h
        · exact Or.inr (by simp [h])
        · rcases ih kv h with h₁ | h₁
          · exact Or.inl h₁
          · exact Or.inr (List.mem_cons_of_mem _ h₁)

lemma smooth_bounds {a prev raw : ℝ} (hα0 : 0 ≤ a) (hα1 : a ≤ 1)
    (hp0 : 0 ≤ prev) (hp1 : prev ≤ 1) (hr0 : 0 ≤ raw) (hr1 : raw ≤ 1) :
    0 ≤ (1 - a) * prev + a * raw ∧ (1 - a) * prev + a * raw ≤ 1 := by
  constructor
  · have h1 : 0 ≤ (1 - a) * prev := mul_nonneg (by linarith) hp0
    have h2 : 0 ≤ a * raw := mul_nonneg hα0 hr0
    linarith
  · nlinarith

lemma rawOf_bounds (cfg : MetaModelConfig) (p : LivePacket) :
    0 ≤ rawOf cfg p ∧ rawOf cfg p ≤ 1 := by
  rw [rawOf_eq_sigmoid]
  exact ⟨le_of_lt (sigmoid_pos _), le_of_lt (sigmoid_lt_one _)⟩

lemma update_bounds (cfg : MetaModelConfig) (hα0 : 0 ≤ cfg.alpha)
    (hα1 : cfg.alpha ≤ 1) (state : List (String × ℝ))
    (hst : ∀ kv ∈ state, 0 ≤ kv.2 ∧ kv.2 ≤ 1) (p : LivePacket) :
    (0 ≤ (MetaModel.update cfg state p).1.p_win
        ∧ (MetaModel.update cfg state p).1.p_win ≤ 1)
      ∧ ∀ kv ∈ (MetaModel.update cfg state p).2, 0 ≤ kv.2 ∧ kv.2 ≤ 1 := by
  have hraw := rawOf_bounds cfg p
  have hprev := lookupD_bounds state p.gid (rawOf cfg p) hst hraw
  have hsmooth := smooth_bounds hα0 hα1 hprev.1 hprev.2 hraw.1 hraw.2
  constructor
  · exact hsmooth
  · intro kv hkv
    rcases mem_setKey _ _ _ kv hkv with h | h
    · rw [h]
      exact hsmooth
    · exact hst kv h

lemma run_bounds (cfg : MetaModelConfig) (hα0 : 0 ≤ cfg.alpha)
    (hα1 : cfg.alpha ≤ 1) :
    ∀ (packets : List LivePacket) (state : List (String × ℝ)),
      (∀ kv ∈ state, 0 ≤ kv.2 ∧ kv.2 ≤ 1) →
      (∀ msg ∈ (MetaModel.run cfg state packets).1, 0 ≤ msg.p_win ∧ msg.p_win ≤ 1)
        ∧ ∀ kv ∈ (MetaModel.run cfg state packets).2, 0 ≤ kv.2 ∧ kv.2 ≤ 1 := by
  intro packets
  induction packets with
  | nil =>
      intro state hst
      exact ⟨by simp [MetaModel.run], by simpa [MetaModel.run] using hst⟩
  | cons p rest ih =>
      intro state hst
      have hu := update_bounds cfg hα0 hα1 state hst p
      have hr := ih (MetaModel.update cfg state p).2 hu.2
      constructor
      · intro msg hmsg
        simp only [MetaModel.run] at hmsg
        rcases List.mem_cons.mp hmsg with h | h
        · rw [h]
          exact hu.1
        · exact hr.1 msg h
      · intro kv hkv
        simp only [MetaModel.run] at hkv
        exact hr.2 kv hkv

/-- Claim C5: over any input packet sequence fed to the smoothing model
(the `meta_model` singleton: default configuration, initially empty state),
every smoothed probability it returns lies in `[0, 1]`, and every value in
the per-contest `SmoothingState` dict lies in `[0, 1]`.  Every value ever
stored equals the `p_win` of the message emitted by the update that stored
it, and the state after any prefix of the sequence is covered by
instantiating `packets` at that prefix. -/
theorem claim_C5_smoothing_in_unit (packets : List LivePacket) :
    (∀ msg ∈ (MetaModel.run defaultConfig [] packets).1,
        0 ≤ msg.p_win ∧ msg.p_win ≤ 1)
      ∧ ∀ kv ∈ (MetaModel.run defaultConfig [] packets).2,
          0 ≤ kv.2 ∧ kv.2 ≤ 1 := by
  have hα0 : (0 : ℝ) ≤ defaultConfig.alpha := by norm_num [defaultConfig]
  have hα1 : defaultConfig.alpha ≤ 1 := by norm_num [defaultConfig]
  exact run_bounds defaultConfig hα0 hα1 packets [] (by simp)

/-- A minimal packet: prediction 0, no SHAP items. -/
noncomputable def pktZero : LivePacket := ⟨"g", 1, 0, [], "v0", none⟩

/-- Witness for C5: the single message produced by running the model on one
concrete packet is in the output list and its smoothed probability is
within `[0, 1]`. -/
theorem claim_C5_witness :
    (MetaModel.update defaultConfig [] pktZero).1
        ∈ (MetaModel.run defaultConfig [] [pktZero]).1
      ∧ 0 ≤ (MetaModel.update defaultConfig [] pktZero).1.p_win
      ∧ (MetaModel.update defaultConfig [] pktZero).1.p_win ≤ 1 := by
  have hmem : (MetaModel.update defaultConfig [] pktZero).1
      ∈ (MetaModel.run defaultConfig [] [pktZero]).1 := by
    simp [MetaModel.run]
  have h := (claim_C5_smoothing_in_unit [pktZero]).1 _ hmem
  exact ⟨hmem, h.1, h.2⟩

/-- Claim C4: `MetaModel.update` computes
`raw = sigmoid(beta["bias"] + beta["y_pred"]·y_pred + Σ beta.get(b, 0)·bucket[b])`
(weight 0 for unconfigured buckets), and returns
`smoothed = (1 − α)·prev + α·raw` where `prev` is the contest's stored
state, defaulting to `raw` when the contest has no stored state yet — so
the first smoothed output for a contest equals `raw`.  With `α = 0.5` and
two consecutive packets for the same (fresh) contest whose raw
probabilities are 0.6 then 0.8, the second smoothed output is exactly
0.70. -/
theorem claim_C4_meta_update :
    (∀ (cfg : MetaModelConfig) (state : List (String × ℝ)) (packet : LivePacket),
        (MetaModel.update cfg state packet).1.explain.raw
            = sigmoid (logitSpec cfg packet)
          ∧ (MetaModel.update cfg state packet).1.p_win
              = (1 - cfg.alpha) * lookupD state packet.gid (rawOf cfg packet)
                + cfg.alpha * rawOf cfg packet
          ∧ (state.find? (fun kv => kv.1 == packet.gid) = none →
              (MetaModel.update cfg state packet).1.p_win = rawOf cfg packet))
      ∧ ∀ (cfg : MetaModelConfig) (p₁ p₂ : LivePacket),
          cfg.alpha = 0.5 → p₂.gid = p₁.gid →
          rawOf cfg p₁ = 0.6 → rawOf cfg p₂ = 0.8 →
          (MetaModel.update cfg (MetaModel.update cfg [] p₁).2 p₂).1.p_win = 0.70 := by
  constructor
  · intro cfg state packet
    refine ⟨?_, rfl, ?_⟩
    · show rawOf cfg packet = sigmoid (logitSpec cfg packet)
      rw [rawOf_eq_sigmoid, logitOf_eq_logitSpec]
    · intro hnone
      show (1 - cfg.alpha) * lookupD state packet.gid (rawOf cfg packet)
          + cfg.alpha * rawOf cfg packet = rawOf cfg packet
      unfold lookupD
      rw [hnone]
      ring
  · intro cfg p₁ p₂ hα hgid hr₁ hr₂
    have hlook : lookupD
        [(p₁.gid, (1 - cfg.alpha) * rawOf cfg p₁ + cfg.alpha * rawOf cfg p₁)]
        p₂.gid (rawOf cfg p₂)
        = (1 - cfg.alpha) * rawOf cfg p₁ + cfg.alpha * rawOf cfg p₁ := by
      unfold lookupD
      rw [hgid]
      simp [List.find?]
    calc (MetaModel.update cfg (MetaModel.update cfg [] p₁).2 p₂).1.p_win
        = (1 - cfg.alpha) * ((1 - cfg.alpha) * rawOf cfg p₁ + cfg.alpha * rawOf cfg p₁)
            + cfg.alpha * rawOf cfg p₂ := by
          show (1 - cfg.alpha)
              * lookupD (MetaModel.update cfg [] p₁).2 p₂.gid (rawOf cfg p₂)
              + cfg.alpha * rawOf cfg p₂ = _
          rw [show (MetaModel.update cfg [] p₁).2
              = [(p₁.gid, (1 - cfg.alpha) * rawOf cfg p₁ + cfg.alpha * rawOf cfg p₁)]
            from rfl]
          rw [hlook]
      _ = 0.70 := by
          rw [hα, hr₁, hr₂]
          norm_num

/-- The α = 0.5 configuration used by the smoothing test and the spec's
worked example. -/
noncomputable def cfgHalf : MetaModelConfig := ⟨1/2, defaultBeta⟩

/-- A packet whose raw probability under `cfgHalf` is exactly 0.6:
`sigmoid(log(3/2)) = 1/(1 + 2/3) = 3/5`. -/
noncomputable def pkt06 : LivePacket := ⟨"g", 1, Real.log (3/2), [], "v0", none⟩

/-- A packet whose raw probability under `cfgHalf` is exactly 0.8:
`sigmoid(log 4) = 1/(1 + 1/4) = 4/5`. -/
noncomputable def pkt08 : LivePacket := ⟨"g", 2, Real.log 4, [], "v0", none⟩

lemma lookupD_defaultBeta_bias : lookupD defaultBeta "bias" 0 = 0 := by
  simp [lookupD, defaultBeta, List.find?]

lemma lookupD_defaultBeta_ypred : lookupD defaultBeta "y_pred" 0 = 1 := by
  simp [lookupD, defaultBeta, List.find?]

lemma rawOf_cfgHalf_log (packet : LivePacket) (hsh : packet.shap = [])
    (y : ℝ) (hy : 0 < y) (hyp : packet.y_pred = Real.log y) :
    rawOf cfgHalf packet = 1 / (1 + y⁻¹) := by
  have hlogit : logitOf cfgHalf packet = Real.log y := by
    unfold logitOf bucketize_shap
    rw [hsh]
    show lookupD cfgHalf.beta "bias" 0 + lookupD cfgHalf.beta "y_pred" 0 * packet.y_pred
        = Real.log y
    rw [show cfgHalf.beta = defaultBeta from rfl, lookupD_defaultBeta_bias,
      lookupD_defaultBeta_ypred, hyp]
    ring
  unfold rawOf
  rw [hlogit, Real.exp_neg, Real.exp_log hy]

lemma rawOf_pkt06 : rawOf cfgHalf pkt06 = 0.6 := by
  rw [rawOf_cfgHalf_log pkt06 rfl (3/2) (by norm_num) rfl]
  norm_num

lemma rawOf_pkt08 : rawOf cfgHalf pkt08 = 0.8 := by
  rw [rawOf_cfgHalf_log pkt08 rfl 4 (by norm_num) rfl]
  norm_num

/-- Witness for C4: the two concrete packets `pkt06` and `pkt08` realise
raw probabilities 0.6 and 0.8 exactly under the α = 0.5 configuration; the
fresh-contest hypothesis is discharged at the empty state, and the second
smoothed output equals 0.70. -/
theorem claim_C4_witness :
    cfgHalf.alpha = 0.5
      ∧ pkt08.gid = pkt06.gid
      ∧ rawOf cfgHalf pkt06 = 0.6
      ∧ rawOf cfgHalf pkt08 = 0.8
      ∧ ([] : List (String × ℝ)).find? (fun kv => kv.1 == pkt06.gid) = none
      ∧ (MetaModel.update cfgHalf [] pkt06).1.p_win = rawOf cfgHalf pkt06
      ∧ (MetaModel.update cfgHalf (MetaModel.update cfgHalf [] pkt06).2 pkt08).1.p_win
          = 0.70 := by
  have hα : cfgHalf.alpha = 0.5 := by norm_num [cfgHalf]
  refine ⟨hα, rfl, rawOf_pkt06, rawOf_pkt08, rfl, ?_, ?_⟩
  · exact (claim_C4_meta_update.1 cfgHalf [] pkt06).2.2 rfl
  · exact claim_C4_meta_update.2 cfgHalf pkt06 pkt08 hα rfl rawOf_pkt06 rawOf_pkt08

end WebShapp
